import Mathlib

/-!
Verification of the Bitcask storage engine of kving-rs.

This file gives a shallow embedding of `src/kving/src/bitcask/bitcask.rs`
and `src/kving/src/kving/config.rs` and proves or refutes the frozen claims
about it.

Modelling conventions:
* Bytes are `Nat` (`Vec<u8>` becomes `List Nat`; real file bytes are `< 256`).
* `u64`/`u32` fields are `Nat`; the Rust casts `key.len() as u64` and
  `value.len() as u64` are lossless on every supported platform, so no
  wrap-around is modelled there.  The on-disk big-endian serialisation
  (`u64BytesBE`, `u32BytesBE`) takes every integer modulo `2 ^ 64`
  respectively `2 ^ 32`, exactly as `byteorder::BE` does.
* A data file is its byte content, `List Nat`; reading at an offset with
  `read_exact` semantics is `readBytes` (it fails, as `UnexpectedEof`, when
  the requested range does not fit).
* The `BufWriter<File>` of the active file is modelled as the pair of the
  OS-visible file content (`Bitcask.fs` applied to the file id) and the
  not-yet-flushed buffer `Bitcask.active_buf`.  `flush` moves the buffer to
  the file; a `seek(SeekFrom::End(0))` on a `BufWriter` flushes first (std
  behaviour) and then reports the file length.  `sync_all` has no separate
  observable effect here (no crash model), and clock reads
  (`SystemTime::now`) are passed in as explicit `Nat` arguments.
* `crc32fast` is the reflected IEEE CRC-32; `crc32` below is the standard
  bitwise formulation (checked against the `"123456789" ↦ 0xCBF43926` test
  vector).
* `DashMap<Vec<u8>, RecordPos>` is modelled extensionally as the map
  `KeyDir : List Nat → Option RecordPos`; the claims only use per-key
  `get`/`insert`/`remove`/`contains_key`.
-/

/-- Big-endian byte serialisation of a `u32` (`byteorder::WriteBytesExt::write_u32::<BE>`). -/
def u32BytesBE (n : Nat) : List Nat :=
  [n / 2 ^ 24 % 256, n / 2 ^ 16 % 256, n / 2 ^ 8 % 256, n % 256]

/-- Big-endian byte serialisation of a `u64` (`byteorder::WriteBytesExt::write_u64::<BE>`). -/
def u64BytesBE (n : Nat) : List Nat :=
  [n / 2 ^ 56 % 256, n / 2 ^ 48 % 256, n / 2 ^ 40 % 256, n / 2 ^ 32 % 256,
   n / 2 ^ 24 % 256, n / 2 ^ 16 % 256, n / 2 ^ 8 % 256, n % 256]

/-- Big-endian reassembly of a byte list into an integer (`read_u32::<BE>` / `read_u64::<BE>`). -/
def bytesToNat (bs : List Nat) : Nat := bs.foldl (fun acc b => acc * 256 + b) 0

/-- Reading `n` bytes at absolute offset `off` with `read_exact` semantics:
`none` is `ErrorKind::UnexpectedEof` (the requested range does not fit in the file). -/
def readBytes (file : List Nat) (off n : Nat) : Option (List Nat) :=
  if off + n ≤ file.length then some ((file.drop off).take n) else none

/-- Embeds `file.read_u32::<BE>()` at an absolute offset. -/
def readU32BE (file : List Nat) (off : Nat) : Option Nat :=
  (readBytes file off 4).map bytesToNat

/-- Embeds `file.read_u64::<BE>()` at an absolute offset. -/
def readU64BE (file : List Nat) (off : Nat) : Option Nat :=
  (readBytes file off 8).map bytesToNat

/-- One shift-and-conditionally-xor round of the reflected IEEE CRC-32. -/
def crc32Round (c : Nat) : Nat :=
  if c % 2 = 1 then c / 2 ^^^ 0xEDB88320 else c / 2

/-- Feed one byte into the CRC-32 state (`crc32fast::Hasher::update` per byte);
`b % 256` models the `u8` byte value. -/
def crc32UpdateByte (c b : Nat) : Nat := crc32Round^[8] (c ^^^ b % 256)

/-- CRC-32 (IEEE) of a byte sequence, as `crc32fast::Hasher::new` + `update` + `finalize`. -/
def crc32 (bs : List Nat) : Nat := bs.foldl crc32UpdateByte 0xFFFFFFFF ^^^ 0xFFFFFFFF

/-- Embeds `StoreModel` of `config.rs`; only `Bitcask` exists. -/
inductive StoreModel where
  | Bitcask
deriving DecidableEq

/-- Embeds `StoreModel::extension`. -/
def StoreModel.extension : StoreModel → String
  | .Bitcask => "bsk"

/-- Embeds `Config` of `config.rs` (`PathBuf` and `String` both become `String`;
the numeric fields are `u64`/`u32` in Rust, `Nat` here). -/
structure Config where
  data_dir : String
  name : String
  max_file_size : Nat
  max_file_handle_caches : Nat
  max_historical_files : Nat
  strict_crc_validation : Bool
  store_model : StoreModel
deriving DecidableEq

/-- Embeds `impl Default for Config` of `config.rs`. -/
def Config.default : Config :=
  { data_dir := "data"
    name := "bitcask"
    max_file_size := 8 * 1024 * 1024
    max_file_handle_caches := 30
    max_historical_files := 5
    strict_crc_validation := false
    store_model := StoreModel.Bitcask }

/-- Embeds `Error` of `errors.rs` (payloads of the `IOError` and `SystemTimeError`
variants are dropped; they are never constructed by the modelled code). -/
inductive Error where
  | IOError
  | SystemTimeError
  | PoisonError (msg : String)
  | CorruptedData
  | InvalidData (msg : String)
  | RemoveError
  | Unknown
deriving DecidableEq

deriving instance DecidableEq for Except

/-- Embeds `RecordPos` of `bitcask.rs`: the in-memory location of a record's value. -/
structure RecordPos where
  file_id : Nat
  value_size : Nat
  value_pos : Nat
  timestamp : Nat
deriving DecidableEq

/-- Embeds `RecordData` of `bitcask.rs`: one decoded log record. -/
structure RecordData where
  crc : Nat
  timestamp : Nat
  key_size : Nat
  value_size : Nat
  key : List Nat
  value : List Nat
deriving DecidableEq

/-- Embeds `RecordData::HEADER_SIZE`: `crc(4) + timestamp(8) + key_size(8) + value_size(8)`. -/
def RecordData.HEADER_SIZE : Nat := 4 + 8 + 8 + 8

/-- Embeds `RecordData::TOMBSTONE`: the sentinel value `&[0]`. -/
def RecordData.TOMBSTONE : List Nat := [0]

/-- Embeds `RecordData::new` (the `SystemTime::now` read is the explicit `timestamp` argument). -/
def RecordData.new (timestamp : Nat) (key value : List Nat) : RecordData :=
  { crc := 0
    timestamp := timestamp
    key_size := key.length
    value_size := value.length
    key := key
    value := value }

/-- Embeds `RecordData::tombstone`. -/
def RecordData.tombstone (timestamp : Nat) (key : List Nat) : RecordData :=
  RecordData.new timestamp key RecordData.TOMBSTONE

/-- Embeds `RecordData::is_tombstone`. -/
def RecordData.is_tombstone (r : RecordData) : Bool :=
  r.value_size == RecordData.TOMBSTONE.length && r.value == RecordData.TOMBSTONE

/-- Embeds `RecordData::total_size`. -/
def RecordData.total_size (r : RecordData) : Nat :=
  RecordData.HEADER_SIZE + r.key_size + r.value_size

/-- The bytes of `RecordData::encode` after the 4 CRC bytes:
`timestamp || key_size || value_size || key || value`, integers big-endian. -/
def RecordData.payload (r : RecordData) : List Nat :=
  u64BytesBE r.timestamp ++ u64BytesBE r.key_size ++ u64BytesBE r.value_size ++ r.key ++ r.value

/-- Embeds `RecordData::encode`: the CRC-32 of the payload bytes (`buf[4..]`) is written
big-endian into the first four bytes, followed by the payload.  The Rust
function returns `Result` but its writes into a `Vec` cannot fail. -/
def RecordData.encode (r : RecordData) : List Nat :=
  u32BytesBE (crc32 r.payload) ++ r.payload

/-- Embeds `Bitcask::read_record_data`: decode the fields after the stored CRC, starting at
absolute offset `off`, recomputing the CRC over the re-serialised fields.
`none` is an `UnexpectedEof` error; no other error can arise from in-memory bytes. -/
def read_record_data (file : List Nat) (off : Nat) : Option RecordData := do
  let timestamp ← readU64BE file off
  let key_size ← readU64BE file (off + 8)
  let value_size ← readU64BE file (off + 16)
  let key ← readBytes file (off + 24) key_size
  let value ← readBytes file (off + 24 + key_size) value_size
  some { crc := crc32 (u64BytesBE timestamp ++ u64BytesBE key_size ++ u64BytesBE value_size
                        ++ key ++ value)
         timestamp := timestamp
         key_size := key_size
         value_size := value_size
         key := key
         value := value }

/-- Embeds `Bitcask::read_next_record`.  The Rust result type
`Result<Option<Result<(RecordData, u64), u64>>>` becomes
`Except Error (Option (Sum (RecordData × Nat) Nat))`: `.ok none` is end of file,
`.inl` carries the record and its start offset, `.inr` the skip size of a record
whose stored CRC mismatches (lenient mode). -/
def read_next_record (file : List Nat) (start_offset : Nat) (strict_crc : Bool) :
    Except Error (Option (Sum (RecordData × Nat) Nat)) :=
  match readU32BE file start_offset with
  | none => .ok none
  | some stored_crc =>
    match read_record_data file (start_offset + 4) with
    | none => .ok none
    | some record =>
      if stored_crc ≠ record.crc then
        if strict_crc then .error .CorruptedData
        else .ok (some (.inr record.total_size))
      else .ok (some (.inl (record, start_offset)))

/-- Embeds `KeyDir`: the in-memory index, modelled extensionally. -/
def KeyDir : Type := List Nat → Option RecordPos

/-- Embeds `DashMap::new`. -/
def KeyDir.empty : KeyDir := fun _ => none

/-- Embeds `DashMap::insert` (overwrite). -/
def KeyDir.insert (m : KeyDir) (k : List Nat) (v : RecordPos) : KeyDir :=
  fun k' => if k' = k then some v else m k'

/-- Embeds `DashMap::remove`. -/
def KeyDir.remove (m : KeyDir) (k : List Nat) : KeyDir :=
  fun k' => if k' = k then none else m k'

/-- Embeds `DashMap::contains_key`. -/
def KeyDir.contains_key (m : KeyDir) (k : List Nat) : Bool := (m k).isSome

/-- The `while let` loop of `Bitcask::process_data_file`: starting at `offset`,
decode records; a tombstone removes its key from the index, any other record
overwrites the index entry of its key with its location; a CRC-skipped record
advances the offset by the returned skip size; end of file stops the scan. -/
def processFileLoop (strict_crc : Bool) (file_id : Nat) (file : List Nat)
    (keydir : KeyDir) (offset : Nat) : Except Error KeyDir :=
  match h : read_next_record file offset strict_crc with
  | .error e => .error e
  | .ok none => .ok keydir
  | .ok (some (.inl (record, record_start_pos))) =>
    let keydir' :=
      if record.is_tombstone then keydir.remove record.key
      else keydir.insert record.key
        { file_id := file_id
          value_size := record.value_size
          value_pos := record_start_pos + RecordData.HEADER_SIZE + record.key_size
          timestamp := record.timestamp }
    processFileLoop strict_crc file_id file keydir' (record_start_pos + record.total_size)
  | .ok (some (.inr skip_size)) =>
    processFileLoop strict_crc file_id file keydir (offset + skip_size)
termination_by file.length + 1 - offset
decreasing_by
  · have hrb : ∀ (o n : Nat) (l : List Nat), readBytes file o n = some l →
        o + n ≤ file.length := by
      intro o n l hb
      unfold readBytes at hb
      split at hb
      · assumption
      · exact absurd hb (by simp)
    have hrd : ∀ (o : Nat) (r : RecordData), read_record_data file o = some r →
        o + 24 + r.key_size + r.value_size ≤ file.length := by
      intro o r hd
      simp only [read_record_data, readU64BE, Option.bind_eq_bind, Option.bind_eq_some,
        Option.map_eq_some'] at hd
      obtain ⟨ts, ⟨bts, hbts, _⟩, ks, ⟨bks, hbks, hksv⟩, vs, ⟨bvs, hbvs, _⟩,
        key, hkey, value, hvalue, heq⟩ := hd
      obtain ⟨_, _, rfl, rfl, _, _⟩ := RecordData.mk.injEq .. ▸ (Option.some.inj heq)
      have h2 := hrb _ _ _ hkey
      have h3 := hrb _ _ _ hvalue
      omega
    rw [read_next_record.eq_def] at h
    rcases hu : readU32BE file offset with _ | c
    · simp [hu] at h
    · rcases hr : read_record_data file (offset + 4) with _ | r
      · simp [hu, hr] at h
      · simp only [hu, hr] at h
        have hb := hrd _ _ hr
        split at h
        · split at h <;> simp at h
        · simp only [Except.ok.injEq, Option.some.injEq, Sum.inl.injEq, Prod.mk.injEq] at h
          obtain ⟨⟨rfl, rfl⟩, _⟩ := h
          simp only [RecordData.total_size, RecordData.HEADER_SIZE]
          omega
  · have hrb : ∀ (o n : Nat) (l : List Nat), readBytes file o n = some l →
        o + n ≤ file.length := by
      intro o n l hb
      unfold readBytes at hb
      split at hb
      · assumption
      · exact absurd hb (by simp)
    have hrd : ∀ (o : Nat) (r : RecordData), read_record_data file o = some r →
        o + 24 + r.key_size + r.value_size ≤ file.length := by
      intro o r hd
      simp only [read_record_data, readU64BE, Option.bind_eq_bind, Option.bind_eq_some,
        Option.map_eq_some'] at hd
      obtain ⟨ts, ⟨bts, hbts, _⟩, ks, ⟨bks, hbks, hksv⟩, vs, ⟨bvs, hbvs, _⟩,
        key, hkey, value, hvalue, heq⟩ := hd
      obtain ⟨_, _, rfl, rfl, _, _⟩ := RecordData.mk.injEq .. ▸ (Option.some.inj heq)
      have h2 := hrb _ _ _ hkey
      have h3 := hrb _ _ _ hvalue
      omega
    rw [read_next_record.eq_def] at h
    rcases hu : readU32BE file offset with _ | c
    · simp [hu] at h
    · rcases hr : read_record_data file (offset + 4) with _ | r
      · simp [hu, hr] at h
      · simp only [hu, hr] at h
        have hb := hrd _ _ hr
        split at h
        · split at h
          · simp at h
          · simp only [Except.ok.injEq, Option.some.injEq, Sum.inr.injEq] at h
            subst h
            simp only [RecordData.total_size, RecordData.HEADER_SIZE]
            omega
        · simp at h

/-- Embeds `Bitcask::process_data_file` on the given file content (the file system read
of `open_read_only_data_file` is the `file` argument). -/
def process_data_file (config : Config) (file_id : Nat) (file : List Nat)
    (keydir : KeyDir) : Except Error KeyDir :=
  processFileLoop config.strict_crc_validation file_id file keydir 0

/-- Embeds `Bitcask::load_existing_files`, restricted to the key-index part of its result:
replay the files, in the order given, into an initially empty index.  (The
active-file-id part of the Rust function reads the wall clock and is not needed
by any claim.) -/
def load_existing_files (config : Config) (files : List (Nat × List Nat)) :
    Except Error KeyDir :=
  files.foldlM (fun keydir f => process_data_file config f.1 f.2 keydir) KeyDir.empty

/-- Embeds `Bitcask::get_file_ids`: the directory scan yields the id list `ids`
(files with wrong extension or non-numeric stem already excluded), which the
function sorts ascending (`sort_unstable`). -/
def get_file_ids (ids : List Nat) : List Nat :=
  ids.mergeSort (fun a b => a ≤ b)

/-- The recovery composition inside `Bitcask::with_config`: sort the discovered
file ids, then replay each file's content through `process_data_file`. -/
def with_config_keydir (config : Config) (ids : List Nat) (contents : Nat → List Nat) :
    Except Error KeyDir :=
  load_existing_files config ((get_file_ids ids).map (fun i => (i, contents i)))

/-- The effect of one successfully decoded record (paired with its start offset)
on the index, as performed by the loop body of `process_data_file`. -/
def stepKeyDir (file_id : Nat) (keydir : KeyDir) (ev : RecordData × Nat) : KeyDir :=
  if ev.1.is_tombstone then keydir.remove ev.1.key
  else keydir.insert ev.1.key
    { file_id := file_id
      value_size := ev.1.value_size
      value_pos := ev.2 + RecordData.HEADER_SIZE + ev.1.key_size
      timestamp := ev.1.timestamp }

/-- The sequence of successfully decoded records of one file, each with its start
offset, under the same skip/stop rules as `process_data_file`. -/
def scanLoop (strict_crc : Bool) (file : List Nat) (offset : Nat) :
    Except Error (List (RecordData × Nat)) :=
  match h : read_next_record file offset strict_crc with
  | .error e => .error e
  | .ok none => .ok []
  | .ok (some (.inl (record, record_start_pos))) =>
    (scanLoop strict_crc file (record_start_pos + record.total_size)).map
      (fun evs => (record, record_start_pos) :: evs)
  | .ok (some (.inr skip_size)) =>
    scanLoop strict_crc file (offset + skip_size)
termination_by file.length + 1 - offset
decreasing_by
  · have hrb : ∀ (o n : Nat) (l : List Nat), readBytes file o n = some l →
        o + n ≤ file.length := by
      intro o n l hb
      unfold readBytes at hb
      split at hb
      · assumption
      · exact absurd hb (by simp)
    have hrd : ∀ (o : Nat) (r : RecordData), read_record_data file o = some r →
        o + 24 + r.key_size + r.value_size ≤ file.length := by
      intro o r hd
      simp only [read_record_data, readU64BE, Option.bind_eq_bind, Option.bind_eq_some,
        Option.map_eq_some'] at hd
      obtain ⟨ts, ⟨bts, hbts, _⟩, ks, ⟨bks, hbks, hksv⟩, vs, ⟨bvs, hbvs, _⟩,
        key, hkey, value, hvalue, heq⟩ := hd
      obtain ⟨_, _, rfl, rfl, _, _⟩ := RecordData.mk.injEq .. ▸ (Option.some.inj heq)
      have h2 := hrb _ _ _ hkey
      have h3 := hrb _ _ _ hvalue
      omega
    rw [read_next_record.eq_def] at h
    rcases hu : readU32BE file offset with _ | c
    · simp [hu] at h
    · rcases hr : read_record_data file (offset + 4) with _ | r
      · simp [hu, hr] at h
      · simp only [hu, hr] at h
        have hb := hrd _ _ hr
        split at h
        · split at h <;> simp at h
        · simp only [Except.ok.injEq, Option.some.injEq, Sum.inl.injEq, Prod.mk.injEq] at h
          obtain ⟨⟨rfl, rfl⟩, _⟩ := h
          simp only [RecordData.total_size, RecordData.HEADER_SIZE]
          omega
  · have hrb : ∀ (o n : Nat) (l : List Nat), readBytes file o n = some l →
        o + n ≤ file.length := by
      intro o n l hb
      unfold readBytes at hb
      split at hb
      · assumption
      · exact absurd hb (by simp)
    have hrd : ∀ (o : Nat) (r : RecordData), read_record_data file o = some r →
        o + 24 + r.key_size + r.value_size ≤ file.length := by
      intro o r hd
      simp only [read_record_data, readU64BE, Option.bind_eq_bind, Option.bind_eq_some,
        Option.map_eq_some'] at hd
      obtain ⟨ts, ⟨bts, hbts, _⟩, ks, ⟨bks, hbks, hksv⟩, vs, ⟨bvs, hbvs, _⟩,
        key, hkey, value, hvalue, heq⟩ := hd
      obtain ⟨_, _, rfl, rfl, _, _⟩ := RecordData.mk.injEq .. ▸ (Option.some.inj heq)
      have h2 := hrb _ _ _ hkey
      have h3 := hrb _ _ _ hvalue
      omega
    rw [read_next_record.eq_def] at h
    rcases hu : readU32BE file offset with _ | c
    · simp [hu] at h
    · rcases hr : read_record_data file (offset + 4) with _ | r
      · simp [hu, hr] at h
      · simp only [hu, hr] at h
        have hb := hrd _ _ hr
        split at h
        · split at h
          · simp at h
          · simp only [Except.ok.injEq, Option.some.injEq, Sum.inr.injEq] at h
            subst h
            simp only [RecordData.total_size, RecordData.HEADER_SIZE]
            omega
        · simp at h

/-- All successfully decoded records of a list of files, in replay order, each
tagged with the id of the file it came from. -/
def all_events (strict_crc : Bool) : List (Nat × List Nat) →
    Except Error (List (Nat × RecordData × Nat))
  | [] => .ok []
  | f :: fs => do
    let evs ← scanLoop strict_crc f.2 0
    let rest ← all_events strict_crc fs
    .ok (evs.map (fun ev => (f.1, ev)) ++ rest)

/-- The index entry a replayed record event leaves for its own key: `none` for a
tombstone, otherwise the record's location. -/
def eventEntry (e : Nat × RecordData × Nat) : Option RecordPos :=
  if e.2.1.is_tombstone then none
  else some
    { file_id := e.1
      value_size := e.2.1.value_size
      value_pos := e.2.2 + RecordData.HEADER_SIZE + e.2.1.key_size
      timestamp := e.2.1.timestamp }

/-- The effect of one tagged record event on the index. -/
def stepEvent (keydir : KeyDir) (e : Nat × RecordData × Nat) : KeyDir :=
  stepKeyDir e.1 keydir e.2

/-- Embeds `Bitcask::should_merge_record`: the liveness test of the merge pass. -/
def should_merge_record (record : RecordData) (file_id : Nat) (record_start_pos : Nat)
    (keydir : KeyDir) : Bool :=
  match keydir record.key with
  | some memory_record_pos =>
    memory_record_pos.file_id == file_id &&
    memory_record_pos.value_pos == record_start_pos + RecordData.HEADER_SIZE + record.key_size &&
    decide (memory_record_pos.timestamp ≥ record.timestamp)
  | none => false

/-- The mutable state threaded through `Bitcask::merge_single_file`: the merge
file's bytes, the running output offset, and the merge index. -/
structure MergeState where
  merge_file : List Nat
  new_file_offset : Nat
  merge_keydir : KeyDir

/-- Copying one live record in `Bitcask::merge_single_file`: the raw record bytes
(`read_exact` of `total_size` bytes at the record's start) are appended to the
merge file, the merge index gets the record's new location, and the output
offset advances. -/
def mergeCopyStep (file : List Nat) (merge_file_id : Nat) (st : MergeState)
    (ev : RecordData × Nat) : MergeState :=
  { merge_file := st.merge_file ++ (file.drop ev.2).take ev.1.total_size
    new_file_offset := st.new_file_offset + ev.1.total_size
    merge_keydir := st.merge_keydir.insert ev.1.key
      { file_id := merge_file_id
        value_size := ev.1.value_size
        value_pos := st.new_file_offset + RecordData.HEADER_SIZE + ev.1.key_size
        timestamp := ev.1.timestamp } }

/-- The `while let` loop of `Bitcask::merge_single_file`: scan the old file with
the same tolerance rules as recovery; every successfully decoded record that
passes `should_merge_record` is copied via `mergeCopyStep`. -/
def mergeFileLoop (strict_crc : Bool) (old_file_id : Nat) (file : List Nat)
    (keydir : KeyDir) (merge_file_id : Nat) (st : MergeState) (offset : Nat) :
    Except Error MergeState :=
  match h : read_next_record file offset strict_crc with
  | .error e => .error e
  | .ok none => .ok st
  | .ok (some (.inl (record, record_start_pos))) =>
    if should_merge_record record old_file_id record_start_pos keydir then
      mergeFileLoop strict_crc old_file_id file keydir merge_file_id
        (mergeCopyStep file merge_file_id st (record, record_start_pos))
        (record_start_pos + record.total_size)
    else
      mergeFileLoop strict_crc old_file_id file keydir merge_file_id st
        (record_start_pos + record.total_size)
  | .ok (some (.inr skip_size)) =>
    mergeFileLoop strict_crc old_file_id file keydir merge_file_id st (offset + skip_size)
termination_by file.length + 1 - offset
decreasing_by
  · have hrb : ∀ (o n : Nat) (l : List Nat), readBytes file o n = some l →
        o + n ≤ file.length := by
      intro o n l hb
      unfold readBytes at hb
      split at hb
      · assumption
      · exact absurd hb (by simp)
    have hrd : ∀ (o : Nat) (r : RecordData), read_record_data file o = some r →
        o + 24 + r.key_size + r.value_size ≤ file.length := by
      intro o r hd
      simp only [read_record_data, readU64BE, Option.bind_eq_bind, Option.bind_eq_some,
        Option.map_eq_some'] at hd
      obtain ⟨ts, ⟨bts, hbts, _⟩, ks, ⟨bks, hbks, hksv⟩, vs, ⟨bvs, hbvs, _⟩,
        key, hkey, value, hvalue, heq⟩ := hd
      obtain ⟨_, _, rfl, rfl, _, _⟩ := RecordData.mk.injEq .. ▸ (Option.some.inj heq)
      have h2 := hrb _ _ _ hkey
      have h3 := hrb _ _ _ hvalue
      omega
    rw [read_next_record.eq_def] at h
    rcases hu : readU32BE file offset with _ | c
    · simp [hu] at h
    · rcases hr : read_record_data file (offset + 4) with _ | r
      · simp [hu, hr] at h
      · simp only [hu, hr] at h
        have hb := hrd _ _ hr
        split at h
        · split at h <;> simp at h
        · simp only [Except.ok.injEq, Option.some.injEq, Sum.inl.injEq, Prod.mk.injEq] at h
          obtain ⟨⟨rfl, rfl⟩, _⟩ := h
          simp only [RecordData.total_size, RecordData.HEADER_SIZE]
          omega
  · have hrb : ∀ (o n : Nat) (l : List Nat), readBytes file o n = some l →
        o + n ≤ file.length := by
      intro o n l hb
      unfold readBytes at hb
      split at hb
      · assumption
      · exact absurd hb (by simp)
    have hrd : ∀ (o : Nat) (r : RecordData), read_record_data file o = some r →
        o + 24 + r.key_size + r.value_size ≤ file.length := by
      intro o r hd
      simp only [read_record_data, readU64BE, Option.bind_eq_bind, Option.bind_eq_some,
        Option.map_eq_some'] at hd
      obtain ⟨ts, ⟨bts, hbts, _⟩, ks, ⟨bks, hbks, hksv⟩, vs, ⟨bvs, hbvs, _⟩,
        key, hkey, value, hvalue, heq⟩ := hd
      obtain ⟨_, _, rfl, rfl, _, _⟩ := RecordData.mk.injEq .. ▸ (Option.some.inj heq)
      have h2 := hrb _ _ _ hkey
      have h3 := hrb _ _ _ hvalue
      omega
    rw [read_next_record.eq_def] at h
    rcases hu : readU32BE file offset with _ | c
    · simp [hu] at h
    · rcases hr : read_record_data file (offset + 4) with _ | r
      · simp [hu, hr] at h
      · simp only [hu, hr] at h
        have hb := hrd _ _ hr
        split at h
        · split at h <;> simp at h
        · simp only [Except.ok.injEq, Option.some.injEq, Sum.inl.injEq, Prod.mk.injEq] at h
          obtain ⟨⟨rfl, rfl⟩, _⟩ := h
          simp only [RecordData.total_size, RecordData.HEADER_SIZE]
          omega
  · have hrb : ∀ (o n : Nat) (l : List Nat), readBytes file o n = some l →
        o + n ≤ file.length := by
      intro o n l hb
      unfold readBytes at hb
      split at hb
      · assumption
      · exact absurd hb (by simp)
    have hrd : ∀ (o : Nat) (r : RecordData), read_record_data file o = some r →
        o + 24 + r.key_size + r.value_size ≤ file.length := by
      intro o r hd
      simp only [read_record_data, readU64BE, Option.bind_eq_bind, Option.bind_eq_some,
        Option.map_eq_some'] at hd
      obtain ⟨ts, ⟨bts, hbts, _⟩, ks, ⟨bks, hbks, hksv⟩, vs, ⟨bvs, hbvs, _⟩,
        key, hkey, value, hvalue, heq⟩ := hd
      obtain ⟨_, _, rfl, rfl, _, _⟩ := RecordData.mk.injEq .. ▸ (Option.some.inj heq)
      have h2 := hrb _ _ _ hkey
      have h3 := hrb _ _ _ hvalue
      omega
    rw [read_next_record.eq_def] at h
    rcases hu : readU32BE file offset with _ | c
    · simp [hu] at h
    · rcases hr : read_record_data file (offset + 4) with _ | r
      · simp [hu, hr] at h
      · simp only [hu, hr] at h
        have hb := hrd _ _ hr
        split at h
        · split at h
          · simp at h
          · simp only [Except.ok.injEq, Option.some.injEq, Sum.inr.injEq] at h
            subst h
            simp only [RecordData.total_size, RecordData.HEADER_SIZE]
            omega
        · simp at h

/-- Embeds `Bitcask::merge_single_file` on the content of one old file, threading the
merge state from `st` (the Rust function mutates `merge_file`,
`new_file_offset` and `merge_keydir` in place). -/
def merge_single_file (config : Config) (old_file_id : Nat) (file : List Nat)
    (keydir : KeyDir) (merge_file_id : Nat) (st : MergeState) : Except Error MergeState :=
  mergeFileLoop config.strict_crc_validation old_file_id file keydir merge_file_id st 0

/-- The `Bitcask` engine state.  `fs` maps a file id to the OS-visible content of
its data file; `active_buf` is the not-yet-flushed tail of the active file's
`BufWriter`.  The handle cache only affects which OS handle serves a read and
is not modelled. -/
structure Bitcask where
  config : Config
  keydir : KeyDir
  fs : Nat → List Nat
  active_buf : List Nat
  active_file_id : Nat
  next_file_id : Nat
  file_ids : List Nat

/-- Embeds `BufWriter::flush` of the active file: the buffered bytes reach the OS file. -/
def Bitcask.flush_active (st : Bitcask) : Bitcask :=
  { st with
    fs := fun id => if id = st.active_file_id
            then st.fs st.active_file_id ++ st.active_buf
            else st.fs id
    active_buf := [] }

/-- Embeds `Bitcask::maybe_rotate_file`.  The `seek(SeekFrom::End(0))` flushes the
`BufWriter` (std behaviour) and reports the file length; if the coming record
would overflow `max_file_size`, the engine flushes, syncs, switches the active
file id to `next_file_id`, refreshes `next_file_id` from the clock (`tNow`) and
appends the new id to `file_ids`. -/
def Bitcask.maybe_rotate_file (st : Bitcask) (tNow : Nat) (record_size : Nat) : Bitcask :=
  let st1 := st.flush_active
  let current_offset := (st1.fs st1.active_file_id).length
  if current_offset + record_size > st.config.max_file_size then
    { st1 with
      active_file_id := st1.next_file_id
      next_file_id := tNow
      file_ids := st1.file_ids ++ [st1.next_file_id] }
  else st1

/-- Embeds `Bitcask::put_internal`.  `tRot` and `tRec` are the two `SystemTime::now`
reads (inside `maybe_rotate_file` and `RecordData::new` respectively).  The
record is appended at the end of the active file and flushed, then the index
entry is installed. -/
def Bitcask.put_internal (st : Bitcask) (tRot tRec : Nat) (key value : List Nat) : Bitcask :=
  let record_size := RecordData.HEADER_SIZE + key.length + value.length
  let st1 := st.maybe_rotate_file tRot record_size
  let record := RecordData.new tRec key value
  let st2 := st1.flush_active
  let record_start_pos := (st2.fs st2.active_file_id).length
  let st3 := { st2 with active_buf := st2.active_buf ++ record.encode }
  let st4 := st3.flush_active
  let record_pos : RecordPos :=
    { file_id := st4.active_file_id
      value_size := record.value_size
      value_pos := record_start_pos + RecordData.HEADER_SIZE + record.key_size
      timestamp := record.timestamp }
  { st4 with keydir := st4.keydir.insert key record_pos }

/-- Embeds `Bitcask::get_internal`: resolve the key in the index, read the record at
`value_pos - HEADER_SIZE - key.len()` from the OS-visible file bytes, with the
strict-CRC flag of `read_next_record` hard-coded to `true` as in the source.
An `Err(skip)` decode maps to `None` (`map_or(None, ...)`). -/
def Bitcask.get_internal (st : Bitcask) (key : List Nat) : Except Error (Option (List Nat)) :=
  match st.keydir key with
  | none => .ok none
  | some record_pos =>
    let file := st.fs record_pos.file_id
    let start_offset := record_pos.value_pos - RecordData.HEADER_SIZE - key.length
    match read_next_record file start_offset true with
    | .error e => .error e
    | .ok none => .ok none
    | .ok (some next_record) =>
      .ok (Sum.elim (fun data => some data.1.value) (fun _ => none) next_record)

/-- Embeds `Bitcask::delete_internal`: if the key is present, append a tombstone record
to the active file's `BufWriter` (the `seek(SeekFrom::End(0))` flushes what was
buffered before, the `write_all` of the tombstone is not followed by a flush),
then remove the key from the index.  Absent keys: no effect.  `tNow` is the
clock read inside `RecordData::tombstone`. -/
def Bitcask.delete_internal (st : Bitcask) (tNow : Nat) (key : List Nat) : Bitcask :=
  if st.keydir.contains_key key then
    let tombstone := RecordData.tombstone tNow key
    let st1 := st.flush_active
    let st2 := { st1 with active_buf := st1.active_buf ++ tombstone.encode }
    { st2 with keydir := st2.keydir.remove key }
  else st

/-- Embeds `Bitcask::contains_internal`. -/
def Bitcask.contains_internal (st : Bitcask) (key : List Nat) : Bool :=
  st.keydir.contains_key key

/-! General lemmas about the byte codec. -/

theorem bytesToNat_u32 (n : Nat) : bytesToNat (u32BytesBE n) = n % 2 ^ 32 := by
  simp [bytesToNat, u32BytesBE]
  omega

theorem bytesToNat_u64 (n : Nat) : bytesToNat (u64BytesBE n) = n % 2 ^ 64 := by
  simp [bytesToNat, u64BytesBE]
  omega

theorem crc32Round_lt (c : Nat) (h : c < 2 ^ 32) : crc32Round c < 2 ^ 32 := by
  unfold crc32Round
  split
  · exact Nat.xor_lt_two_pow (by omega) (by norm_num)
  · omega

theorem crc32_lt (bs : List Nat) : crc32 bs < 2 ^ 32 := by
  have hit : ∀ k c, c < 2 ^ 32 → crc32Round^[k] c < 2 ^ 32 := by
    intro k
    induction k with
    | zero => intro c h; simpa using h
    | succ k ih =>
      intro c h
      rw [Function.iterate_succ_apply]
      exact ih _ (crc32Round_lt c h)
  have hfold : ∀ (l : List Nat) (c : Nat), c < 2 ^ 32 → l.foldl crc32UpdateByte c < 2 ^ 32 := by
    intro l
    induction l with
    | nil => intro c h; simpa using h
    | cons b t ih =>
      intro c h
      simp only [List.foldl_cons]
      refine ih _ (hit 8 _ (Nat.xor_lt_two_pow h ?_))
      have : b % 256 < 256 := Nat.mod_lt _ (by norm_num)
      omega
  exact Nat.xor_lt_two_pow (hfold _ _ (by norm_num)) (by norm_num)

theorem readBytes_append (pre mid suf : List Nat) (off n : Nat) (h : off + n ≤ mid.length) :
    readBytes (pre ++ (mid ++ suf)) (pre.length + off) n = some ((mid.drop off).take n) := by
  unfold readBytes
  rw [if_pos (by simp only [List.length_append]; omega)]
  rw [List.drop_append, List.drop_append_of_le_length (by omega),
    List.take_append_of_le_length (by rw [List.length_drop]; omega)]

theorem RecordData.encode_length (r : RecordData) :
    r.encode.length = 28 + r.key.length + r.value.length := by
  simp [RecordData.encode, RecordData.payload, u32BytesBE, u64BytesBE]
  omega

/-- Decoding the body of an encoded record embedded between arbitrary bytes
recovers the record (with the recomputed CRC in its `crc` field). -/
theorem read_record_data_encode (pre suf : List Nat) (r : RecordData)
    (hk : r.key_size = r.key.length) (hv : r.value_size = r.value.length)
    (ht : r.timestamp < 2 ^ 64) (hks : r.key_size < 2 ^ 64) (hvs : r.value_size < 2 ^ 64) :
    read_record_data (pre ++ (r.encode ++ suf)) (pre.length + 4) =
      some { r with crc := crc32 r.payload } := by
  have hlen := r.encode_length
  have e1 : readU64BE (pre ++ (r.encode ++ suf)) (pre.length + 4) = some r.timestamp := by
    unfold readU64BE
    rw [readBytes_append pre r.encode suf 4 8 (by omega)]
    have hsl : (r.encode.drop 4).take 8 = u64BytesBE r.timestamp := by
      simp [RecordData.encode, RecordData.payload, u32BytesBE, u64BytesBE]
    rw [hsl, Option.map_some', bytesToNat_u64, Nat.mod_eq_of_lt ht]
  have e2 : readU64BE (pre ++ (r.encode ++ suf)) (pre.length + 4 + 8) = some r.key_size := by
    unfold readU64BE
    have harith : pre.length + 4 + 8 = pre.length + 12 := by omega
    rw [harith, readBytes_append pre r.encode suf 12 8 (by omega)]
    have hsl : (r.encode.drop 12).take 8 = u64BytesBE r.key_size := by
      simp [RecordData.encode, RecordData.payload, u32BytesBE, u64BytesBE]
    rw [hsl, Option.map_some', bytesToNat_u64, Nat.mod_eq_of_lt hks]
  have e3 : readU64BE (pre ++ (r.encode ++ suf)) (pre.length + 4 + 16) = some r.value_size := by
    unfold readU64BE
    have harith : pre.length + 4 + 16 = pre.length + 20 := by omega
    rw [harith, readBytes_append pre r.encode suf 20 8 (by omega)]
    have hsl : (r.encode.drop 20).take 8 = u64BytesBE r.value_size := by
      simp [RecordData.encode, RecordData.payload, u32BytesBE, u64BytesBE]
    rw [hsl, Option.map_some', bytesToNat_u64, Nat.mod_eq_of_lt hvs]
  have e4 : readBytes (pre ++ (r.encode ++ suf)) (pre.length + 4 + 24) r.key_size =
      some r.key := by
    have harith : pre.length + 4 + 24 = pre.length + 28 := by omega
    rw [harith, readBytes_append pre r.encode suf 28 r.key_size (by omega)]
    have hsl : r.encode.drop 28 = r.key ++ r.value := by
      simp [RecordData.encode, RecordData.payload, u32BytesBE, u64BytesBE]
    rw [hsl, hk, List.take_left]
  have e5 : readBytes (pre ++ (r.encode ++ suf)) (pre.length + 4 + 24 + r.key_size)
      r.value_size = some r.value := by
    have harith : pre.length + 4 + 24 + r.key_size = pre.length + (28 + r.key_size) := by omega
    rw [harith, readBytes_append pre r.encode suf (28 + r.key_size) r.value_size (by omega)]
    have hsl : r.encode.drop (28 + r.key_size) = r.value := by
      have : r.encode.drop (28 + r.key_size) = (r.key ++ r.value).drop r.key_size := by
        have h28 : r.encode.drop 28 = r.key ++ r.value := by
          simp [RecordData.encode, RecordData.payload, u32BytesBE, u64BytesBE]
        rw [← h28, List.drop_drop]
      rw [this, hk, List.drop_left]
    rw [hsl, hv, List.take_length]
  simp only [read_record_data, e1, e2, e3, e4, e5, Option.bind_eq_bind, Option.some_bind]
  rw [RecordData.payload]

/-- Reading the next record at the start of an encoded record embedded between
arbitrary bytes succeeds: the stored CRC matches the recomputed one. -/
theorem read_next_record_encode (pre suf : List Nat) (r : RecordData) (strict_crc : Bool)
    (hk : r.key_size = r.key.length) (hv : r.value_size = r.value.length)
    (ht : r.timestamp < 2 ^ 64) (hks : r.key_size < 2 ^ 64) (hvs : r.value_size < 2 ^ 64) :
    read_next_record (pre ++ (r.encode ++ suf)) pre.length strict_crc =
      .ok (some (.inl ({ r with crc := crc32 r.payload }, pre.length))) := by
  have hstored : readU32BE (pre ++ (r.encode ++ suf)) pre.length = some (crc32 r.payload) := by
    unfold readU32BE
    have h0 : pre.length = pre.length + 0 := by omega
    rw [h0, readBytes_append pre r.encode suf 0 4 (by have := r.encode_length; omega)]
    have hsl : (r.encode.drop 0).take 4 = u32BytesBE (crc32 r.payload) := by
      simp [RecordData.encode, RecordData.payload, u32BytesBE, u64BytesBE]
    rw [hsl, Option.map_some', bytesToNat_u32, Nat.mod_eq_of_lt (crc32_lt _)]
  have hbody := read_record_data_encode pre suf r hk hv ht hks hvs
  rw [read_next_record.eq_def, hstored, hbody]
  simp

/-! Clause-level unfolding lemmas for the three scan loops. -/

theorem processFileLoop_error {strict_crc : Bool} {fid off : Nat} {kd : KeyDir} {e : Error}
    (file : List Nat) (h : read_next_record file off strict_crc = .error e) :
    processFileLoop strict_crc fid file kd off = .error e := by
  rw [processFileLoop.eq_def]
  split <;> simp_all

theorem processFileLoop_eof {strict_crc : Bool} {fid off : Nat} {kd : KeyDir}
    (file : List Nat) (h : read_next_record file off strict_crc = .ok none) :
    processFileLoop strict_crc fid file kd off = .ok kd := by
  rw [processFileLoop.eq_def]
  split <;> simp_all

theorem processFileLoop_ok {strict_crc : Bool} {fid off start : Nat} {kd : KeyDir}
    {record : RecordData} (file : List Nat)
    (h : read_next_record file off strict_crc = .ok (some (.inl (record, start)))) :
    processFileLoop strict_crc fid file kd off =
      processFileLoop strict_crc fid file (stepKeyDir fid kd (record, start))
        (start + record.total_size) := by
  rw [processFileLoop.eq_def]
  split <;> simp_all [stepKeyDir]

theorem processFileLoop_skip {strict_crc : Bool} {fid off skip : Nat} {kd : KeyDir}
    (file : List Nat) (h : read_next_record file off strict_crc = .ok (some (.inr skip))) :
    processFileLoop strict_crc fid file kd off =
      processFileLoop strict_crc fid file kd (off + skip) := by
  rw [processFileLoop.eq_def]
  split <;> simp_all

theorem scanLoop_error {strict_crc : Bool} {off : Nat} {e : Error}
    (file : List Nat) (h : read_next_record file off strict_crc = .error e) :
    scanLoop strict_crc file off = .error e := by
  rw [scanLoop.eq_def]
  split <;> simp_all

theorem scanLoop_eof {strict_crc : Bool} {off : Nat}
    (file : List Nat) (h : read_next_record file off strict_crc = .ok none) :
    scanLoop strict_crc file off = .ok [] := by
  rw [scanLoop.eq_def]
  split <;> simp_all

theorem scanLoop_ok {strict_crc : Bool} {off start : Nat} {record : RecordData}
    (file : List Nat)
    (h : read_next_record file off strict_crc = .ok (some (.inl (record, start)))) :
    scanLoop strict_crc file off =
      (scanLoop strict_crc file (start + record.total_size)).map
        (fun evs => (record, start) :: evs) := by
  rw [scanLoop.eq_def]
  split <;> simp_all

theorem scanLoop_skip {strict_crc : Bool} {off skip : Nat}
    (file : List Nat) (h : read_next_record file off strict_crc = .ok (some (.inr skip))) :
    scanLoop strict_crc file off = scanLoop strict_crc file (off + skip) := by
  rw [scanLoop.eq_def]
  split <;> simp_all

theorem mergeFileLoop_error {strict_crc : Bool} {fid mfid off : Nat} {kd : KeyDir}
    {st : MergeState} {e : Error}
    (file : List Nat) (h : read_next_record file off strict_crc = .error e) :
    mergeFileLoop strict_crc fid file kd mfid st off = .error e := by
  rw [mergeFileLoop.eq_def]
  split <;> simp_all

theorem mergeFileLoop_eof {strict_crc : Bool} {fid mfid off : Nat} {kd : KeyDir}
    {st : MergeState}
    (file : List Nat) (h : read_next_record file off strict_crc = .ok none) :
    mergeFileLoop strict_crc fid file kd mfid st off = .ok st := by
  rw [mergeFileLoop.eq_def]
  split <;> simp_all

theorem mergeFileLoop_ok {strict_crc : Bool} {fid mfid off start : Nat} {kd : KeyDir}
    {st : MergeState} {record : RecordData}
    (file : List Nat)
    (h : read_next_record file off strict_crc = .ok (some (.inl (record, start)))) :
    mergeFileLoop strict_crc fid file kd mfid st off =
      mergeFileLoop strict_crc fid file kd mfid
        (if should_merge_record record fid start kd
          then mergeCopyStep file mfid st (record, start) else st)
        (start + record.total_size) := by
  rw [mergeFileLoop.eq_def]
  split
  · simp_all
  · simp_all
  · rename_i record' start' heq
    rw [h] at heq
    obtain ⟨rfl, rfl⟩ : record' = record ∧ start' = start := by
      simpa using heq.symm
    split <;> simp_all
  · simp_all

theorem mergeFileLoop_skip {strict_crc : Bool} {fid mfid off skip : Nat} {kd : KeyDir}
    {st : MergeState}
    (file : List Nat) (h : read_next_record file off strict_crc = .ok (some (.inr skip))) :
    mergeFileLoop strict_crc fid file kd mfid st off =
      mergeFileLoop strict_crc fid file kd mfid st (off + skip) := by
  rw [mergeFileLoop.eq_def]
  split <;> simp_all

/-! The replay loop is the fold of its scan events; lookups after the fold are
decided by the last event for the key. -/

theorem processFileLoop_eq_scan (strict_crc : Bool) (fid : Nat) (file : List Nat) :
    ∀ (kd : KeyDir) (off : Nat),
      processFileLoop strict_crc fid file kd off =
        (scanLoop strict_crc file off).map (fun evs => evs.foldl (stepKeyDir fid) kd) := by
  intro kd off
  induction kd, off using processFileLoop.induct strict_crc fid file with
  | case1 kd off e h =>
    rw [processFileLoop_error file h, scanLoop_error file h]
    rfl
  | case2 kd off h =>
    rw [processFileLoop_eof file h, scanLoop_eof file h]
    rfl
  | case3 kd off record start h kd' ih =>
    rw [processFileLoop_ok file h, scanLoop_ok file h]
    have hkd : stepKeyDir fid kd (record, start) = kd' := rfl
    rw [hkd, ih]
    cases scanLoop strict_crc file (start + record.total_size) with
    | error e => rfl
    | ok evs =>
      simp only [Except.map]
      rw [List.foldl_cons, hkd]
  | case4 kd off skip h ih =>
    rw [processFileLoop_skip file h, scanLoop_skip file h]
    exact ih

theorem mergeFileLoop_eq_scan (strict_crc : Bool) (fid : Nat) (file : List Nat)
    (kd : KeyDir) (mfid : Nat) :
    ∀ (st : MergeState) (off : Nat),
      mergeFileLoop strict_crc fid file kd mfid st off =
        (scanLoop strict_crc file off).map (fun evs =>
          (evs.filter (fun ev => should_merge_record ev.1 fid ev.2 kd)).foldl
            (mergeCopyStep file mfid) st) := by
  intro st off
  induction st, off using mergeFileLoop.induct strict_crc fid file kd mfid with
  | case1 st off e h =>
    rw [mergeFileLoop_error file h, scanLoop_error file h]
    rfl
  | case2 st off h =>
    rw [mergeFileLoop_eof file h, scanLoop_eof file h]
    rfl
  | case3 st off record start h hlive ih =>
    rw [mergeFileLoop_ok file h, scanLoop_ok file h, if_pos hlive, ih]
    cases scanLoop strict_crc file (start + record.total_size) with
    | error e => rfl
    | ok evs =>
      simp only [Except.map, List.filter_cons, hlive, if_true, List.foldl_cons]
  | case4 st off record start h hlive ih =>
    rw [mergeFileLoop_ok file h, scanLoop_ok file h, if_neg hlive, ih]
    cases scanLoop strict_crc file (start + record.total_size) with
    | error e => rfl
    | ok evs =>
      simp only [Except.map, List.filter_cons, List.foldl_cons]
      rw [if_neg (by simpa using hlive)]
  | case5 st off skip h ih =>
    rw [mergeFileLoop_skip file h, scanLoop_skip file h]
    exact ih

theorem foldlM_process_eq_events (config : Config) :
    ∀ (files : List (Nat × List Nat)) (kd : KeyDir),
      files.foldlM (fun keydir f => process_data_file config f.1 f.2 keydir) kd =
        (all_events config.strict_crc_validation files).map
          (fun evs => evs.foldl stepEvent kd) := by
  intro files
  induction files with
  | nil => intro kd; rfl
  | cons f fs ih =>
    intro kd
    rw [List.foldlM_cons]
    show (process_data_file config f.1 f.2 kd) >>= _ = _
    rw [process_data_file, processFileLoop_eq_scan]
    cases hscan : scanLoop config.strict_crc_validation f.2 0 with
    | error e => simp [all_events, hscan, Except.map, Bind.bind, Except.bind]
    | ok evs =>
      cases hrest : all_events config.strict_crc_validation fs with
      | error e =>
        have hih := ih (evs.foldl (stepKeyDir f.1) kd)
        rw [hrest] at hih
        simp only [Except.map] at hih
        simp [all_events, hscan, hrest, Except.map, Bind.bind, Except.bind, hih]
      | ok rest =>
        have hih := ih (evs.foldl (stepKeyDir f.1) kd)
        rw [hrest] at hih
        simp only [Except.map] at hih
        simp only [all_events, hscan, hrest, Except.map, Bind.bind, Except.bind, hih]
        rw [List.foldl_append, List.foldl_map]
        rfl

theorem load_existing_files_eq_events (config : Config) (files : List (Nat × List Nat)) :
    load_existing_files config files =
      (all_events config.strict_crc_validation files).map
        (fun evs => evs.foldl stepEvent KeyDir.empty) :=
  foldlM_process_eq_events config files KeyDir.empty

theorem foldl_stepEvent_apply (k : List Nat) :
    ∀ (evs : List (Nat × RecordData × Nat)) (kd : KeyDir),
      (evs.foldl stepEvent kd) k =
        ((evs.filter (fun e => e.2.1.key == k)).getLast?.elim (kd k) eventEntry) := by
  intro evs
  induction evs using List.reverseRecOn with
  | nil => intro kd; rfl
  | append_singleton evs e ih =>
    intro kd
    rw [List.foldl_append, List.filter_append]
    simp only [List.foldl_cons, List.foldl_nil]
    by_cases hkey : e.2.1.key = k
    · have hf : List.filter (fun e => e.2.1.key == k) [e] = [e] := by simp [hkey]
      rw [hf, List.getLast?_concat]
      by_cases htomb : e.2.1.is_tombstone
      · simp [stepEvent, stepKeyDir, htomb, eventEntry, KeyDir.remove, hkey]
      · simp [stepEvent, stepKeyDir, htomb, eventEntry, KeyDir.insert, hkey]
    · have hf : List.filter (fun e => e.2.1.key == k) [e] = [] := by simp [hkey]
      rw [hf, List.append_nil]
      have hstep : (stepEvent (evs.foldl stepEvent kd) e) k = (evs.foldl stepEvent kd) k := by
        by_cases htomb : e.2.1.is_tombstone
        · simp [stepEvent, stepKeyDir, htomb, KeyDir.remove, Ne.symm hkey]
        · simp [stepEvent, stepKeyDir, htomb, KeyDir.insert, Ne.symm hkey]
      rw [hstep, ih]

theorem get_file_ids_sorted (ids : List Nat) : (get_file_ids ids).Sorted (· ≤ ·) := by
  refine List.Pairwise.imp ?_ (List.sorted_mergeSort ?_ ?_ ids)
  · intro a b h
    simpa using h
  · intro a b c hab hbc
    simp only [decide_eq_true_eq] at *
    omega
  · intro a b
    simpa using Nat.le_total a b

/-- What `put_internal` does: the freshly inserted index entry resolves through
`get_internal` to the value just written, `contains_internal` holds, and the
active file's OS-visible content is its pre-write content (buffer flushed)
followed by the encoded record. -/
theorem put_internal_spec (st : Bitcask) (tRot tRec : Nat) (key value : List Nat)
    (ht : tRec < 2 ^ 64) (hk : key.length < 2 ^ 64) (hv : value.length < 2 ^ 64) :
    (st.put_internal tRot tRec key value).get_internal key = .ok (some value) ∧
    (st.put_internal tRot tRec key value).contains_internal key = true ∧
    (st.put_internal tRot tRec key value).fs
        (st.put_internal tRot tRec key value).active_file_id =
      ((st.maybe_rotate_file tRot (RecordData.HEADER_SIZE + key.length + value.length)).fs
          (st.maybe_rotate_file tRot
            (RecordData.HEADER_SIZE + key.length + value.length)).active_file_id ++
        (st.maybe_rotate_file tRot
          (RecordData.HEADER_SIZE + key.length + value.length)).active_buf) ++
      (RecordData.new tRec key value).encode := by
  set st1 := st.maybe_rotate_file tRot (RecordData.HEADER_SIZE + key.length + value.length)
    with hst1
  set record := RecordData.new tRec key value with hrecord
  set pre := st1.fs st1.active_file_id ++ st1.active_buf with hpre
  have hput : st.put_internal tRot tRec key value =
      { config := st1.config
        keydir := st1.keydir.insert key
          { file_id := st1.active_file_id
            value_size := record.value_size
            value_pos := pre.length + RecordData.HEADER_SIZE + record.key_size
            timestamp := record.timestamp }
        fs := fun id => if id = st1.active_file_id
                then pre ++ record.encode
                else if id = st1.active_file_id then pre else st1.fs id
        active_buf := []
        active_file_id := st1.active_file_id
        next_file_id := st1.next_file_id
        file_ids := st1.file_ids } := by
    simp only [Bitcask.put_internal, ← hst1, Bitcask.flush_active, ← hrecord]
    simp [← hpre]
  rw [hput]
  have hrk : record.key_size = key.length := rfl
  have hrv : record.value_size = value.length := rfl
  constructor
  · have hstart : pre.length + RecordData.HEADER_SIZE + record.key_size -
        RecordData.HEADER_SIZE - key.length = pre.length := by
      rw [hrk]
      omega
    simp only [Bitcask.get_internal, KeyDir.insert, eq_self_iff_true, if_true, hstart]
    have hdec := read_next_record_encode pre [] record true rfl rfl ht
      (by rw [hrk]; exact hk) (by rw [hrv]; exact hv)
    rw [List.append_nil] at hdec
    rw [hdec]
    rfl
  constructor
  · simp [Bitcask.contains_internal, KeyDir.contains_key, KeyDir.insert]
  · simp

/-- C1: for every key `k` and value `v`, after a successful `put(k, v)` on the
engine, `get(k)` returns `Some(v)` and `contains(k)` returns `true`.  The
bounds are the `u64` range of the record timestamp and of `key.len()` /
`value.len()`. -/
theorem put_then_get_contains (st : Bitcask) (tRot tRec : Nat) (key value : List Nat)
    (ht : tRec < 2 ^ 64) (hk : key.length < 2 ^ 64) (hv : value.length < 2 ^ 64) :
    (st.put_internal tRot tRec key value).get_internal key = .ok (some value) ∧
    (st.put_internal tRot tRec key value).contains_internal key = true :=
  ⟨(put_internal_spec st tRot tRec key value ht hk hv).1,
   (put_internal_spec st tRot tRec key value ht hk hv).2.1⟩

/-- Witness for C1 at a concrete engine state and input. -/
theorem put_then_get_contains_witness :
    100 < 2 ^ 64 ∧
    (Bitcask.put_internal
      { config := Config.default, keydir := KeyDir.empty, fs := fun _ => [],
        active_buf := [], active_file_id := 0, next_file_id := 0, file_ids := [0] }
      0 100 [1] [2, 3]).get_internal [1] = .ok (some [2, 3]) :=
  ⟨by norm_num,
   (put_then_get_contains
      { config := Config.default, keydir := KeyDir.empty, fs := fun _ => [],
        active_buf := [], active_file_id := 0, next_file_id := 0, file_ids := [0] }
      0 100 [1] [2, 3] (by norm_num) (by norm_num) (by norm_num)).1⟩

/-- The first four bytes of an encoded record are the big-endian CRC-32 of its
payload bytes. -/
theorem readU32BE_encode (r : RecordData) :
    readU32BE r.encode 0 = some (crc32 r.payload) := by
  unfold readU32BE readBytes
  rw [if_pos (by have := r.encode_length; omega)]
  have hsl : (r.encode.drop 0).take 4 = u32BytesBE (crc32 r.payload) := by
    simp [RecordData.encode, RecordData.payload, u32BytesBE, u64BytesBE]
  rw [hsl, Option.map_some', bytesToNat_u32, Nat.mod_eq_of_lt (crc32_lt _)]

/-- C2: for every record, decoding the byte sequence produced by `encode`
yields the original timestamp, key and value, and the CRC stored in the first
four bytes is the CRC-32 recomputed over
`timestamp || key_size || value_size || key || value`. -/
theorem encode_decode_roundtrip (ts : Nat) (key value : List Nat)
    (ht : ts < 2 ^ 64) (hk : key.length < 2 ^ 64) (hv : value.length < 2 ^ 64) :
    read_record_data (RecordData.new ts key value).encode 4 =
      some { crc := crc32 (u64BytesBE ts ++ u64BytesBE key.length ++ u64BytesBE value.length
                            ++ key ++ value)
             timestamp := ts
             key_size := key.length
             value_size := value.length
             key := key
             value := value } ∧
    readU32BE (RecordData.new ts key value).encode 0 =
      some (crc32 (u64BytesBE ts ++ u64BytesBE key.length ++ u64BytesBE value.length
                    ++ key ++ value)) := by
  constructor
  · have h := read_record_data_encode [] [] (RecordData.new ts key value) rfl rfl ht hk hv
    simpa [RecordData.new, RecordData.payload] using h
  · have h := readU32BE_encode (RecordData.new ts key value)
    simpa [RecordData.new, RecordData.payload] using h

/-- Witness for C2 at a concrete record. -/
theorem encode_decode_roundtrip_witness :
    5 < 2 ^ 64 ∧
    readU32BE (RecordData.new 5 [1] [2]).encode 0 =
      some (crc32 (u64BytesBE 5 ++ u64BytesBE [1].length ++ u64BytesBE [2].length
                    ++ [1] ++ [2])) :=
  ⟨by norm_num,
   (encode_decode_roundtrip 5 [1] [2] (by norm_num) (by norm_num) (by norm_num)).2⟩

/-- C5 (amended): for a key present in the index, `delete` appends an encoded
tombstone record (one-byte value `0x00`) to the active file's write buffer —
the preceding `seek` flushes previously buffered bytes, but the tombstone
itself is *not* flushed by `delete_internal` — and removes the key from the
index; afterwards `get` returns `Ok(None)` and `contains` returns `false`. -/
theorem delete_present_effect (st : Bitcask) (tNow : Nat) (key : List Nat)
    (h : st.keydir.contains_key key = true) :
    (st.delete_internal tNow key).keydir key = none ∧
    (st.delete_internal tNow key).get_internal key = .ok none ∧
    (st.delete_internal tNow key).contains_internal key = false ∧
    (st.delete_internal tNow key).active_buf = (RecordData.tombstone tNow key).encode ∧
    (st.delete_internal tNow key).fs st.active_file_id
      = st.fs st.active_file_id ++ st.active_buf ∧
    (RecordData.tombstone tNow key).value = [0] := by
  unfold Bitcask.delete_internal
  rw [if_pos h]
  refine ⟨by simp [KeyDir.remove], ?_, by simp [Bitcask.contains_internal,
    KeyDir.contains_key, KeyDir.remove], by simp [Bitcask.flush_active],
    by simp [Bitcask.flush_active], rfl⟩
  simp [Bitcask.get_internal, KeyDir.remove]

set_option maxRecDepth 20000 in
/-- Counterexample to C5 as stated: after `delete` on a present key the
tombstone bytes sit unflushed in the `BufWriter` (30 bytes for a one-byte key),
and the OS-visible active file is unchanged — `delete_internal` never calls
`flush`, so the record has not been flushed to the active file. -/
theorem delete_no_flush_cx :
    (Bitcask.delete_internal
      { config := Config.default
        keydir := KeyDir.empty.insert [7]
          { file_id := 0, value_size := 1, value_pos := 29, timestamp := 1 }
        fs := fun _ => []
        active_buf := []
        active_file_id := 0
        next_file_id := 0
        file_ids := [0] } 5 [7]).fs 0 = [] ∧
    (Bitcask.delete_internal
      { config := Config.default
        keydir := KeyDir.empty.insert [7]
          { file_id := 0, value_size := 1, value_pos := 29, timestamp := 1 }
        fs := fun _ => []
        active_buf := []
        active_file_id := 0
        next_file_id := 0
        file_ids := [0] } 5 [7]).active_buf.length = 30 := by
  constructor
  · decide
  · decide

/-- Witness for the amended C5 at a concrete engine state. -/
theorem delete_present_effect_witness :
    (Bitcask.delete_internal
      { config := Config.default
        keydir := KeyDir.empty.insert [7]
          { file_id := 0, value_size := 1, value_pos := 29, timestamp := 1 }
        fs := fun _ => []
        active_buf := []
        active_file_id := 0
        next_file_id := 0
        file_ids := [0] } 5 [7]).get_internal [7] = .ok none :=
  (delete_present_effect
    { config := Config.default
      keydir := KeyDir.empty.insert [7]
        { file_id := 0, value_size := 1, value_pos := 29, timestamp := 1 }
      fs := fun _ => []
      active_buf := []
      active_file_id := 0
      next_file_id := 0
      file_ids := [0] } 5 [7] (by decide)).2.1

/-- C9: `delete` on a key absent from the index is a no-op: the engine state is
unchanged (no tombstone is appended, the index stays as it was), and the Rust
function returns `Ok(())`. -/
theorem delete_absent_noop (st : Bitcask) (tNow : Nat) (key : List Nat)
    (h : st.keydir.contains_key key = false) :
    st.delete_internal tNow key = st := by
  unfold Bitcask.delete_internal
  rw [if_neg (by simp [h])]

/-- Witness for C9 at a concrete engine state. -/
theorem delete_absent_noop_witness :
    (KeyDir.empty.contains_key [0] = false) ∧
    Bitcask.delete_internal
      { config := Config.default, keydir := KeyDir.empty, fs := fun _ => [],
        active_buf := [], active_file_id := 0, next_file_id := 0, file_ids := [0] }
      5 [0] =
      { config := Config.default, keydir := KeyDir.empty, fs := fun _ => [],
        active_buf := [], active_file_id := 0, next_file_id := 0, file_ids := [0] } :=
  ⟨rfl, delete_absent_noop
    { config := Config.default, keydir := KeyDir.empty, fs := fun _ => [],
      active_buf := [], active_file_id := 0, next_file_id := 0, file_ids := [0] }
    5 [0] rfl⟩

/-- C7 (amended): for a key present in the index, if decoding the record at the
indexed location hits end of file, `get` returns `Ok(None)`; if the stored CRC
mismatches the recomputed one, `get` returns the `CorruptedData` error to the
caller *unconditionally* — `get_internal` passes `strict_crc = true` to
`read_next_record` regardless of `strict_crc_validation`. -/
theorem get_internal_corrupt (st : Bitcask) (key : List Nat) (pos : RecordPos)
    (hpos : st.keydir key = some pos) :
    (read_next_record (st.fs pos.file_id)
        (pos.value_pos - RecordData.HEADER_SIZE - key.length) true = .ok none →
      st.get_internal key = .ok none) ∧
    (∀ (stored : Nat) (r : RecordData),
      readU32BE (st.fs pos.file_id)
        (pos.value_pos - RecordData.HEADER_SIZE - key.length) = some stored →
      read_record_data (st.fs pos.file_id)
        (pos.value_pos - RecordData.HEADER_SIZE - key.length + 4) = some r →
      stored ≠ r.crc →
      st.get_internal key = .error .CorruptedData) := by
  constructor
  · intro h
    unfold Bitcask.get_internal
    rw [hpos]
    simp only [h]
  · intro stored r h1 h2 h3
    have hread : read_next_record (st.fs pos.file_id)
        (pos.value_pos - RecordData.HEADER_SIZE - key.length) true = .error .CorruptedData := by
      rw [read_next_record.eq_def]
      simp only [h1, h2]
      rw [if_pos h3]
      rfl
    unfold Bitcask.get_internal
    rw [hpos]
    simp only [hread]

set_option maxRecDepth 20000 in
/-- Counterexample to C7 as stated: with `strict_crc_validation = false`
(the default), `get` on a key whose record has a mismatching stored CRC does
*not* surface "not found" — it returns the `CorruptedData` error, because
`get_internal` hard-codes strict CRC checking. -/
theorem get_internal_corrupt_cx :
    Config.default.strict_crc_validation = false ∧
    (Bitcask.get_internal
      { config := Config.default
        keydir := KeyDir.empty.insert [5]
          { file_id := 0, value_size := 1, value_pos := 29, timestamp := 0 }
        fs := fun _ => u32BytesBE 0 ++ u64BytesBE 0 ++ u64BytesBE 1 ++ u64BytesBE 1
                        ++ [5] ++ [9]
        active_buf := []
        active_file_id := 0
        next_file_id := 0
        file_ids := [0] } [5]) = .error .CorruptedData := by
  constructor
  · rfl
  · decide

set_option maxRecDepth 20000 in
/-- Witness for the amended C7 at a concrete corrupted engine state. -/
theorem get_internal_corrupt_witness :
    (Bitcask.get_internal
      { config := Config.default
        keydir := KeyDir.empty.insert [6]
          { file_id := 0, value_size := 1, value_pos := 29, timestamp := 0 }
        fs := fun _ => u32BytesBE 0 ++ u64BytesBE 0 ++ u64BytesBE 1 ++ u64BytesBE 1
                        ++ [6] ++ [9]
        active_buf := []
        active_file_id := 0
        next_file_id := 0
        file_ids := [0] } [6]) = .error .CorruptedData :=
  (get_internal_corrupt
    { config := Config.default
      keydir := KeyDir.empty.insert [6]
        { file_id := 0, value_size := 1, value_pos := 29, timestamp := 0 }
      fs := fun _ => u32BytesBE 0 ++ u64BytesBE 0 ++ u64BytesBE 1 ++ u64BytesBE 1
                      ++ [6] ++ [9]
      active_buf := []
      active_file_id := 0
      next_file_id := 0
      file_ids := [0] } [6]
    { file_id := 0, value_size := 1, value_pos := 29, timestamp := 0 }
    (by decide)).2 0
    { crc := crc32 (u64BytesBE 0 ++ u64BytesBE 1 ++ u64BytesBE 1 ++ [6] ++ [9])
      timestamp := 0, key_size := 1, value_size := 1, key := [6], value := [9] }
    (by decide) (by decide) (by decide)

/-- C4 (amended): during merge, a successfully decoded record of an old file is
copied to the merge file if and only if it passes `should_merge_record`, which
holds iff the engine's index has an entry for the record's key whose `file_id`
and `value_pos` equal the record's location and whose `timestamp` is *greater
than or equal to* (not necessarily equal to) the record's timestamp. -/
theorem merge_liveness_spec (config : Config) (old_file_id : Nat) (file : List Nat)
    (keydir : KeyDir) (merge_file_id : Nat) (st : MergeState) :
    merge_single_file config old_file_id file keydir merge_file_id st =
      (scanLoop config.strict_crc_validation file 0).map (fun evs =>
        (evs.filter (fun ev => should_merge_record ev.1 old_file_id ev.2 keydir)).foldl
          (mergeCopyStep file merge_file_id) st) ∧
    (∀ (record : RecordData) (start : Nat) (pos : RecordPos),
      keydir record.key = some pos →
      (should_merge_record record old_file_id start keydir = true ↔
        (pos.file_id = old_file_id ∧
         pos.value_pos = start + RecordData.HEADER_SIZE + record.key_size ∧
         record.timestamp ≤ pos.timestamp))) := by
  constructor
  · rw [merge_single_file]
    exact mergeFileLoop_eq_scan config.strict_crc_validation old_file_id file keydir
      merge_file_id st 0
  · intro record start pos hpos
    unfold should_merge_record
    rw [hpos]
    simp [Bool.and_eq_true, beq_iff_eq, decide_eq_true_eq, ge_iff_le, and_assoc]

/-- Counterexample to C4 as stated: the liveness test accepts a record whose
index entry has the same `file_id` and `value_pos` but a *strictly greater*
timestamp, so "all equal" is not necessary for a record to be copied. -/
theorem merge_liveness_cx :
    should_merge_record
      { crc := 0, timestamp := 5, key_size := 1, value_size := 1, key := [9], value := [3] }
      1 0
      (KeyDir.empty.insert [9]
        { file_id := 1, value_size := 1, value_pos := 29, timestamp := 6 }) = true ∧
    decide (({ file_id := 1, value_size := 1, value_pos := 29, timestamp := 6 }
        : RecordPos).timestamp =
      ({ crc := 0, timestamp := 5, key_size := 1, value_size := 1, key := [9], value := [3] }
        : RecordData).timestamp) = false := by
  decide

/-- Witness for the amended C4: the liveness characterisation applied at a
concrete record, location and index entry. -/
theorem merge_liveness_spec_witness :
    should_merge_record
      { crc := 0, timestamp := 5, key_size := 1, value_size := 1, key := [9], value := [3] }
      1 0
      (KeyDir.empty.insert [9]
        { file_id := 1, value_size := 1, value_pos := 29, timestamp := 6 }) = true ↔
      (({ file_id := 1, value_size := 1, value_pos := 29, timestamp := 6 }
          : RecordPos).file_id = 1 ∧
       ({ file_id := 1, value_size := 1, value_pos := 29, timestamp := 6 }
          : RecordPos).value_pos = 0 + RecordData.HEADER_SIZE +
          ({ crc := 0, timestamp := 5, key_size := 1, value_size := 1, key := [9], value := [3] }
            : RecordData).key_size ∧
       ({ crc := 0, timestamp := 5, key_size := 1, value_size := 1, key := [9], value := [3] }
          : RecordData).timestamp ≤
       ({ file_id := 1, value_size := 1, value_pos := 29, timestamp := 6 }
          : RecordPos).timestamp) :=
  (merge_liveness_spec Config.default 1 []
    (KeyDir.empty.insert [9]
      { file_id := 1, value_size := 1, value_pos := 29, timestamp := 6 }) 2
    { merge_file := [], new_file_offset := 0, merge_keydir := KeyDir.empty }).2
    { crc := 0, timestamp := 5, key_size := 1, value_size := 1, key := [9], value := [3] }
    0
    { file_id := 1, value_size := 1, value_pos := 29, timestamp := 6 }
    (by decide)

/-- C6: when scanning a data file, a record whose stored CRC mismatches the
recomputed CRC fails the scan with `CorruptedData` when
`strict_crc_validation` is true (so open fails); when it is false, the scanner
skips past the record by its advertised total size `28 + key_size + value_size`
and the scan continues from there.  (The `eprintln!` diagnostic is I/O and is
not modelled.) -/
theorem crc_mismatch_scan (config : Config) (file : List Nat) (off stored : Nat)
    (r : RecordData) (fid : Nat) (kd : KeyDir)
    (h1 : readU32BE file off = some stored)
    (h2 : read_record_data file (off + 4) = some r)
    (h3 : stored ≠ r.crc) :
    (config.strict_crc_validation = true →
      read_next_record file off config.strict_crc_validation = .error .CorruptedData ∧
      processFileLoop config.strict_crc_validation fid file kd off = .error .CorruptedData) ∧
    (config.strict_crc_validation = false →
      read_next_record file off config.strict_crc_validation =
        .ok (some (.inr (28 + r.key_size + r.value_size))) ∧
      processFileLoop config.strict_crc_validation fid file kd off =
        processFileLoop config.strict_crc_validation fid file kd
          (off + (28 + r.key_size + r.value_size))) := by
  constructor
  · intro hflag
    rw [hflag]
    have hread : read_next_record file off true = .error .CorruptedData := by
      rw [read_next_record.eq_def]
      simp only [h1, h2]
      rw [if_pos h3]
      rfl
    exact ⟨hread, processFileLoop_error file hread⟩
  · intro hflag
    rw [hflag]
    have hread : read_next_record file off false =
        .ok (some (.inr (28 + r.key_size + r.value_size))) := by
      rw [read_next_record.eq_def]
      simp only [h1, h2]
      rw [if_pos h3]
      rfl
    exact ⟨hread, processFileLoop_skip file hread⟩

set_option maxRecDepth 20000 in
/-- Witness for C6 at a concrete corrupt file (stored CRC `0`, all-zero
header): strict mode turns the mismatch into `CorruptedData`. -/
theorem crc_mismatch_scan_witness :
    readU32BE (u32BytesBE 0 ++ u64BytesBE 0 ++ u64BytesBE 0 ++ u64BytesBE 0) 0 = some 0 ∧
    read_next_record (u32BytesBE 0 ++ u64BytesBE 0 ++ u64BytesBE 0 ++ u64BytesBE 0) 0
        ({ Config.default with strict_crc_validation := true } : Config).strict_crc_validation
      = .error .CorruptedData :=
  ⟨by decide,
   ((crc_mismatch_scan { Config.default with strict_crc_validation := true }
      (u32BytesBE 0 ++ u64BytesBE 0 ++ u64BytesBE 0 ++ u64BytesBE 0) 0 0
      { crc := crc32 (u64BytesBE 0 ++ u64BytesBE 0 ++ u64BytesBE 0 ++ ([] : List Nat)
                       ++ ([] : List Nat))
        timestamp := 0, key_size := 0, value_size := 0, key := [], value := [] }
      0 KeyDir.empty (by decide) (by decide) (by decide)).1 rfl).1⟩

/-- Counterexample to C8 as stated: the default configuration sets
`max_file_handle_caches` to `30` (not `100`) and `max_historical_files` to `5`
(not `10`). -/
theorem config_default_cx :
    Config.default.max_file_handle_caches = 30 ∧
    Config.default.max_historical_files = 5 ∧
    decide (Config.default.max_file_handle_caches = 100) = false ∧
    decide (Config.default.max_historical_files = 10) = false := by
  decide

/-- C8 (amended): the default configuration sets `max_file_handle_caches` to 30
and `max_historical_files` to 5, with `data_dir` `"data"`, `name` `"bitcask"`,
`max_file_size` 8 MiB, `strict_crc_validation` `false` and store model
`Bitcask`. -/
theorem config_default_values :
    Config.default.data_dir = "data" ∧
    Config.default.name = "bitcask" ∧
    Config.default.max_file_size = 8 * 1024 * 1024 ∧
    Config.default.max_file_handle_caches = 30 ∧
    Config.default.max_historical_files = 5 ∧
    Config.default.strict_crc_validation = false ∧
    Config.default.store_model = StoreModel.Bitcask := by
  decide

/-- C3: at open, recovery replays the data files in ascending file-id order
(`get_file_ids` sorts the discovered ids), and the index produced by the replay
maps every key to the entry of the *last* successfully decoded record for that
key across the replay stream — a tombstone as last record leaves the key
absent, any other record leaves its location; a key with no record is absent
(last write wins). -/
theorem recovery_last_write_wins (config : Config) (ids : List Nat)
    (contents : Nat → List Nat) (k : List Nat) (kd : KeyDir)
    (evs : List (Nat × RecordData × Nat))
    (hload : with_config_keydir config ids contents = .ok kd)
    (hevs : all_events config.strict_crc_validation
      ((get_file_ids ids).map (fun i => (i, contents i))) = .ok evs) :
    (get_file_ids ids).Sorted (· ≤ ·) ∧
    kd k = ((evs.filter (fun e => e.2.1.key == k)).getLast?.elim none eventEntry) := by
  refine ⟨get_file_ids_sorted ids, ?_⟩
  have h := load_existing_files_eq_events config
    ((get_file_ids ids).map (fun i => (i, contents i)))
  rw [with_config_keydir] at hload
  rw [hload, hevs] at h
  simp only [Except.map] at h
  have hkd : kd = evs.foldl stepEvent KeyDir.empty := Except.ok.inj h
  rw [hkd, foldl_stepEvent_apply]
  rfl

/-- Witness for C3 at a concrete (empty) database directory: recovery succeeds,
produces the empty index, and the last-write-wins characterisation holds. -/
theorem recovery_last_write_wins_witness :
    KeyDir.empty [] =
      ((([] : List (Nat × RecordData × Nat)).filter
        (fun e => e.2.1.key == ([] : List Nat))).getLast?.elim none eventEntry) :=
  (recovery_last_write_wins Config.default [] (fun _ => []) [] KeyDir.empty []
    (by simp only [with_config_keydir, load_existing_files, get_file_ids,
          List.mergeSort_nil, List.map_nil, List.foldlM_nil]
        rfl)
    (by simp only [get_file_ids, List.mergeSort_nil, List.map_nil]
        rfl)).2

/-- C10: a record written by `put(k, [0x00])` — a genuine one-byte `0x00` value,
not a delete — is classified as a tombstone during the startup replay: before
the reopen, `get(k)` returns `Some([0x00])`, yet replaying the active file (as
recovery does on reopen, starting from an empty index) leaves `k` absent from
the index.  `st0` is any engine state whose files are empty and whose write
buffer is empty (e.g. a freshly opened empty database). -/
theorem put_zero_byte_replays_as_tombstone (st0 : Bitcask) (tRot tRec : Nat)
    (k : List Nat) (hfs : ∀ id, st0.fs id = []) (hbuf : st0.active_buf = [])
    (ht : tRec < 2 ^ 64) (hk : k.length < 2 ^ 64) :
    (st0.put_internal tRot tRec k [0]).get_internal k = .ok (some [0]) ∧
    process_data_file st0.config (st0.put_internal tRot tRec k [0]).active_file_id
      ((st0.put_internal tRot tRec k [0]).fs
        (st0.put_internal tRot tRec k [0]).active_file_id)
      KeyDir.empty = .ok (KeyDir.empty.remove k) ∧
    (KeyDir.empty.remove k) k = none := by
  have hspec := put_internal_spec st0 tRot tRec k [0] ht hk (by norm_num)
  refine ⟨hspec.1, ?_, by simp [KeyDir.remove]⟩
  have hrot_fs : ∀ (t n id : Nat), (st0.maybe_rotate_file t n).fs id = [] := by
    intro t n id
    simp only [Bitcask.maybe_rotate_file, Bitcask.flush_active, hfs, hbuf,
      List.append_nil, ite_self, eq_self_iff_true, if_true]
    split <;> rfl
  have hrot_buf : ∀ (t n : Nat), (st0.maybe_rotate_file t n).active_buf = [] := by
    intro t n
    simp only [Bitcask.maybe_rotate_file, Bitcask.flush_active, hfs, hbuf,
      List.append_nil, ite_self, eq_self_iff_true, if_true]
    split <;> rfl
  have hfile : (st0.put_internal tRot tRec k [0]).fs
      (st0.put_internal tRot tRec k [0]).active_file_id
      = (RecordData.new tRec k [0]).encode := by
    rw [hspec.2.2, hrot_fs, hrot_buf]
    rfl
  rw [hfile, process_data_file]
  have hdec := read_next_record_encode [] [] (RecordData.new tRec k [0])
    st0.config.strict_crc_validation rfl rfl ht hk (by norm_num [RecordData.new])
  simp only [List.nil_append, List.append_nil, List.length_nil] at hdec
  rw [processFileLoop_ok _ hdec]
  have heof : read_next_record (RecordData.new tRec k [0]).encode
      (0 + ({ RecordData.new tRec k [0] with
              crc := crc32 (RecordData.new tRec k [0]).payload } : RecordData).total_size)
      st0.config.strict_crc_validation = .ok none := by
    rw [read_next_record.eq_def]
    have hnone : readU32BE (RecordData.new tRec k [0]).encode
        (0 + ({ RecordData.new tRec k [0] with
                crc := crc32 (RecordData.new tRec k [0]).payload } : RecordData).total_size)
        = none := by
      unfold readU32BE readBytes
      rw [if_neg]
      · rfl
      · have hlen := (RecordData.new tRec k [0]).encode_length
        simp only [RecordData.total_size, RecordData.HEADER_SIZE, RecordData.new,
          List.length_cons, List.length_nil] at *
        omega
    simp only [hnone]
  rw [processFileLoop_eof _ heof]
  congr 1

/-- Witness for C10 at a concrete empty engine state and key. -/
theorem put_zero_byte_replays_as_tombstone_witness :
    (Bitcask.put_internal
      { config := Config.default, keydir := KeyDir.empty, fs := fun _ => [],
        active_buf := [], active_file_id := 0, next_file_id := 0, file_ids := [0] }
      0 7 [3] [0]).get_internal [3] = .ok (some [0]) :=
  (put_zero_byte_replays_as_tombstone
    { config := Config.default, keydir := KeyDir.empty, fs := fun _ => [],
      active_buf := [], active_file_id := 0, next_file_id := 0, file_ids := [0] }
    0 7 [3] (fun _ => rfl) rfl (by norm_num) (by norm_num)).1
